import Mathlib

/-!
Verification of the ingestion-and-retrieval pipeline of the rag-kb-chatbot
repository. The backend services (chunking, vector store, retriever, answer
composer) are described by the specification and the repository README but
their Python sources are not part of the source tree; they are modelled here
from the words of the specification. The frontend helper functions are
translated directly from frontend/src/App.tsx.
-/

namespace RagKb

/-! ## Chunker (modelled from the spec, section 4.2) -/

/-- Modelled from the spec: the sliding-window loop of
backend/app/services/chunking.py (file absent from the source tree).
A window of `W` characters is taken at the current offset, then the offset
advances by the step `d = W - O`; the loop stops when the offset reaches the
end of the text. `fuel` bounds the recursion; callers pass the text length,
which suffices because each step consumes at least one character when
`1 ≤ d`. -/
def slideFuel (W d : Nat) : Nat → List Char → List (List Char)
  | 0, _ => []
  | _ + 1, [] => []
  | fuel + 1, a :: t => ((a :: t).take W) :: slideFuel W d fuel ((a :: t).drop d)

/-- Modelled from the spec: `chunk_text` of backend/app/services/chunking.py
(file absent from the source tree). Window size `W`, overlap `O` with
`0 ≤ O < W`; a configuration with `O ≥ W` is rejected at startup, modelled
as the empty output. -/
def chunk_text (W O : Nat) (s : List Char) : List (List Char) :=
  if O < W then slideFuel W (W - O) s.length s else []

/-- The reconstruction read literally from the claim: every chunk except the
final one contributes itself with its last `O` characters removed. -/
def overlapConcat (O : Nat) : List (List Char) → List Char
  | [] => []
  | [c] => c
  | c :: c2 :: rest => c.take (c.length - O) ++ overlapConcat O (c2 :: rest)

/-- The corrected reconstruction: every chunk except the final one
contributes its first `d = W - O` characters. For full-length chunks this
is the same as removing the last `O` characters. -/
def stepConcat (d : Nat) : List (List Char) → List Char
  | [] => []
  | [c] => c
  | c :: c2 :: rest => c.take d ++ stepConcat d (c2 :: rest)

theorem slideFuel_nil (W d fuel : Nat) : slideFuel W d fuel [] = [] := by
  cases fuel <;> rfl

theorem slideFuel_cons (W d fuel : Nat) (s : List Char) (hs : s ≠ []) :
    slideFuel W d (fuel + 1) s = s.take W :: slideFuel W d fuel (s.drop d) := by
  cases s with
  | nil => exact absurd rfl hs
  | cons a t => rfl

theorem slideFuel_ne_nil (W d fuel : Nat) (s : List Char) (hs : s ≠ []) :
    slideFuel W d (fuel + 1) s ≠ [] := by
  rw [slideFuel_cons W d fuel s hs]
  exact List.cons_ne_nil _ _

theorem stepConcat_cons (d : Nat) (c : List Char) (l : List (List Char)) (hl : l ≠ []) :
    stepConcat d (c :: l) = c.take d ++ stepConcat d l := by
  cases l with
  | nil => exact absurd rfl hl
  | cons c2 rest => rfl

theorem stepConcat_slideFuel (W d : Nat) (hd : 0 < d) (hdW : d ≤ W) :
    ∀ (fuel : Nat) (s : List Char), s.length ≤ fuel →
      stepConcat d (slideFuel W d fuel s) = s := by
  intro fuel
  induction fuel with
  | zero =>
    intro s hs
    have : s = [] := List.eq_nil_of_length_eq_zero (Nat.le_zero.mp hs)
    subst this
    rfl
  | succ n ih =>
    intro s hs
    by_cases hnil : s = []
    · subst hnil
      rw [slideFuel_nil]
      rfl
    · rw [slideFuel_cons W d n s hnil]
      by_cases hrest : s.drop d = []
      · have hlen : s.length ≤ d := by
          have := List.drop_eq_nil_iff.mp hrest
          omega
        rw [hrest, slideFuel_nil]
        exact List.take_of_length_le (le_trans hlen hdW)
      · have hlen : (s.drop d).length ≤ n := by
          rw [List.length_drop]
          have : s.length ≤ n + 1 := hs
          have hpos : 0 < s.length := List.length_pos.mpr hnil
          omega
        have hne : slideFuel W d n (s.drop d) ≠ [] := by
          cases n with
          | zero =>
            exfalso
            exact hrest (List.eq_nil_of_length_eq_zero (Nat.le_zero.mp hlen))
          | succ m => exact slideFuel_ne_nil W d m (s.drop d) hrest
        rw [stepConcat_cons d _ _ hne, ih (s.drop d) hlen, List.take_take,
          Nat.min_eq_left hdW, List.take_append_drop]

/-- C2 (amended): for all `W`, `O` with `O < W` and every text, concatenating
each chunk truncated to its first `W - O` characters, the final chunk taken
in full, reconstructs the original text exactly. -/
theorem chunk_roundtrip (W O : Nat) (s : List Char) (h : O < W) :
    stepConcat (W - O) (chunk_text W O s) = s := by
  unfold chunk_text
  rw [if_pos h]
  exact stepConcat_slideFuel W (W - O) (by omega) (by omega) s.length s le_rfl

/-- Witness for C2 (amended) at `W = 3`, `O = 2`, text `"ab"`. -/
theorem chunk_roundtrip_witness :
    2 < 3 ∧ stepConcat (3 - 2) (chunk_text 3 2 ['a', 'b']) = ['a', 'b'] :=
  ⟨by decide, chunk_roundtrip 3 2 ['a', 'b'] (by decide)⟩

/-- C2 as stated fails: with `W = 3`, `O = 2` the text `"ab"` chunks into
`["ab", "b"]`; removing the last `O = 2` characters of the non-final chunk
(which is shorter than `W`) loses a character, so the concatenation gives
`"b"`, not `"ab"`. -/
theorem chunk_roundtrip_counterexample :
    overlapConcat 2 (chunk_text 3 2 ['a', 'b']) ≠ ['a', 'b'] := by
  decide

/-! ## Data model and vector store (modelled from the spec, sections 3 and 4.4) -/

/-- Modelled from the spec: the Document row of backend/app/db/models.py
(file absent from the source tree): identifier, original filename,
free-form collection identifier. The storage reference and timestamp play
no role in any claim and are omitted. -/
structure Document where
  id : Nat
  filename : String
  collection_id : String
deriving DecidableEq

/-- Modelled from the spec: the Chunk row of backend/app/db/models.py
(file absent from the source tree): identifier, owning document identifier,
zero-based chunk index, optional page number, raw text span, embedding
vector. -/
structure Chunk where
  id : Nat
  document_id : Nat
  chunk_index : Nat
  page : Option Nat
  text : List Char
  embedding : List ℚ
deriving DecidableEq

/-- Modelled from the spec: the persisted state of the vector store, the
two tables of section 3. -/
structure Store where
  documents : List Document
  chunks : List Chunk
deriving DecidableEq

/-- A chunk belongs to the collection `c` when some document row is its
owner and carries collection identifier `c`. -/
def inCollection (st : Store) (c : String) (ch : Chunk) : Bool :=
  st.documents.any fun d => d.id == ch.document_id && d.collection_id == c

/-- The ranking order of search results: ascending distance, ties broken by
ascending chunk identifier. -/
def rankLE (a b : Chunk × ℚ) : Prop :=
  a.2 < b.2 ∨ (a.2 = b.2 ∧ a.1.id ≤ b.1.id)

instance rankLE.decRel : DecidableRel rankLE := fun a b =>
  inferInstanceAs (Decidable (_ ∨ _))

instance rankLE.total : IsTotal (Chunk × ℚ) rankLE where
  total a b := by
    rcases lt_trichotomy a.2 b.2 with h | h | h
    · exact Or.inl (Or.inl h)
    · rcases Nat.le_total a.1.id b.1.id with hid | hid
      · exact Or.inl (Or.inr ⟨h, hid⟩)
      · exact Or.inr (Or.inr ⟨h.symm, hid⟩)
    · exact Or.inr (Or.inl h)

instance rankLE.trans : IsTrans (Chunk × ℚ) rankLE where
  trans a b c hab hbc := by
    rcases hab with hab | ⟨hab, haid⟩
    · rcases hbc with hbc | ⟨hbc, _⟩
      · exact Or.inl (lt_trans hab hbc)
      · exact Or.inl (hbc ▸ hab)
    · rcases hbc with hbc | ⟨hbc, hbid⟩
      · exact Or.inl (hab ▸ hbc)
      · exact Or.inr ⟨hab.trans hbc, le_trans haid hbid⟩

/-- Modelled from the spec: `search(collection_id, query_embedding, top_k)`
of the vector store (backend code absent from the source tree). Candidates
are the chunks whose owning document carries the requested collection
identifier; each is annotated with its distance to the query under the
configured metric `dist` (cosine distance by default), sorted by ascending
distance with ties broken by ascending chunk identifier, and the first
`top_k` results are returned. -/
def search (st : Store) (dist : List ℚ → List ℚ → ℚ) (c : String)
    (q : List ℚ) (top_k : Nat) : List (Chunk × ℚ) :=
  (((st.chunks.filter (inCollection st c)).map
    fun ch => (ch, dist ch.embedding q)).insertionSort rankLE).take top_k

/-- C1: search results are sorted by non-decreasing distance, ties between
equal distances broken by ascending chunk identifier, and the result length
is at most `top_k` and at most the number of chunks owned by the queried
collection. -/
theorem search_sorted_bounded (st : Store) (dist : List ℚ → List ℚ → ℚ)
    (c : String) (q : List ℚ) (top_k : Nat) (hk : 1 ≤ top_k) :
    List.Pairwise (fun a b : Chunk × ℚ => a.2 ≤ b.2 ∧ (a.2 = b.2 → a.1.id ≤ b.1.id))
      (search st dist c q top_k) ∧
    (search st dist c q top_k).length ≤ top_k ∧
    (search st dist c q top_k).length ≤ (st.chunks.filter (inCollection st c)).length := by
  unfold search
  refine ⟨?_, ?_, ?_⟩
  · have hsorted : List.Pairwise rankLE
        (((st.chunks.filter (inCollection st c)).map
          fun ch => (ch, dist ch.embedding q)).insertionSort rankLE) :=
      List.sorted_insertionSort rankLE _
    have htake := hsorted.sublist (List.take_sublist top_k _)
    refine htake.imp ?_
    intro a b hab
    rcases hab with hlt | ⟨heq, hid⟩
    · exact ⟨le_of_lt hlt, fun heq => absurd heq (ne_of_lt hlt)⟩
    · exact ⟨le_of_eq heq, fun _ => hid⟩
  · rw [List.length_take]
    exact Nat.min_le_left _ _
  · refine le_trans (List.take_sublist _ _).length_le (le_of_eq ?_)
    rw [List.length_insertionSort, List.length_map]

/-- Witness for C1 on a concrete two-chunk store with `top_k = 1`. -/
theorem search_sorted_bounded_witness :
    (1 : Nat) ≤ 1 ∧
    (List.Pairwise (fun a b : Chunk × ℚ => a.2 ≤ b.2 ∧ (a.2 = b.2 → a.1.id ≤ b.1.id))
      (search ⟨[⟨1, "a.txt", "default"⟩],
        [⟨1, 1, 0, none, ['a'], [1]⟩, ⟨2, 1, 1, none, ['b'], [0]⟩]⟩
        (fun u v => ((u.zip v).map fun p => (p.1 - p.2) * (p.1 - p.2)).sum)
        "default" [1] 1) ∧
    (search ⟨[⟨1, "a.txt", "default"⟩],
        [⟨1, 1, 0, none, ['a'], [1]⟩, ⟨2, 1, 1, none, ['b'], [0]⟩]⟩
        (fun u v => ((u.zip v).map fun p => (p.1 - p.2) * (p.1 - p.2)).sum)
        "default" [1] 1).length ≤ 1 ∧
    (search ⟨[⟨1, "a.txt", "default"⟩],
        [⟨1, 1, 0, none, ['a'], [1]⟩, ⟨2, 1, 1, none, ['b'], [0]⟩]⟩
        (fun u v => ((u.zip v).map fun p => (p.1 - p.2) * (p.1 - p.2)).sum)
        "default" [1] 1).length ≤
      ((⟨[⟨1, "a.txt", "default"⟩],
        [⟨1, 1, 0, none, ['a'], [1]⟩, ⟨2, 1, 1, none, ['b'], [0]⟩]⟩ : Store).chunks.filter
          (inCollection ⟨[⟨1, "a.txt", "default"⟩],
            [⟨1, 1, 0, none, ['a'], [1]⟩, ⟨2, 1, 1, none, ['b'], [0]⟩]⟩ "default")).length) :=
  ⟨le_rfl, search_sorted_bounded _ _ _ _ 1 le_rfl⟩

theorem mem_search_inCollection (st : Store) (dist : List ℚ → List ℚ → ℚ)
    (c : String) (q : List ℚ) (top_k : Nat) (ch : Chunk) (d : ℚ)
    (hmem : (ch, d) ∈ search st dist c q top_k) :
    inCollection st c ch = true := by
  unfold search at hmem
  have h1 := List.take_subset _ _ hmem
  rw [List.mem_insertionSort] at h1
  obtain ⟨ch0, hch0, heq⟩ := List.mem_map.mp h1
  have hfst : ch0 = ch := congrArg Prod.fst heq
  subst hfst
  exact List.of_mem_filter hch0

theorem search_empty_of_no_docs (st : Store) (dist : List ℚ → List ℚ → ℚ)
    (c : String) (q : List ℚ) (top_k : Nat)
    (hempty : ∀ d ∈ st.documents, d.collection_id ≠ c) :
    search st dist c q top_k = [] := by
  unfold search
  have hfilter : st.chunks.filter (inCollection st c) = [] := by
    rw [List.filter_eq_nil_iff]
    intro ch _ hcontra
    rw [inCollection, List.any_eq_true] at hcontra
    obtain ⟨doc, hdoc, hprop⟩ := hcontra
    rw [Bool.and_eq_true, beq_iff_eq, beq_iff_eq] at hprop
    exact hempty doc hdoc hprop.2
  rw [hfilter]
  simp [List.insertionSort]

/-- C4: collection isolation.  First conjunct: when document identifiers are
unique, a chunk owned by a document of collection `A` is never returned by a
search over a distinct collection `B`.  Second conjunct: searching a
collection identifier used by no document returns the empty result set (and
is not an error: `search` is total). -/
theorem collection_isolation (st : Store) (dist : List ℚ → List ℚ → ℚ)
    (A B : String) (q : List ℚ) (top_k : Nat) (ch : Chunk) (d : ℚ)
    (doc : Document) :
    ((st.documents.map Document.id).Nodup → doc ∈ st.documents →
      doc.id = ch.document_id → doc.collection_id = A → A ≠ B →
      (ch, d) ∉ search st dist B q top_k) ∧
    ((∀ dc ∈ st.documents, dc.collection_id ≠ B) →
      search st dist B q top_k = []) := by
  constructor
  · intro hnodup hdoc hown hA hAB hmem
    have hin := mem_search_inCollection st dist B q top_k ch d hmem
    rw [inCollection, List.any_eq_true] at hin
    obtain ⟨doc2, hdoc2, hprop⟩ := hin
    rw [Bool.and_eq_true, beq_iff_eq, beq_iff_eq] at hprop
    obtain ⟨hid2, hcol2⟩ := hprop
    have : doc = doc2 :=
      List.inj_on_of_nodup_map hnodup hdoc hdoc2 (by rw [hown, hid2])
    rw [← this] at hcol2
    exact hAB (hA ▸ hcol2)
  · exact search_empty_of_no_docs st dist B q top_k

/-- Witness for C4 on a concrete one-document store. -/
theorem collection_isolation_witness :
    (([⟨1, "a.txt", "A"⟩] : List Document).map Document.id).Nodup ∧
    (⟨1, 1, 0, none, ['a'], [1]⟩ : Chunk) ∈
      (⟨[⟨1, "a.txt", "A"⟩], [⟨1, 1, 0, none, ['a'], [1]⟩]⟩ : Store).chunks ∧
    ((⟨1, 1, 0, none, ['a'], [1]⟩, (0 : ℚ)) ∉
      search ⟨[⟨1, "a.txt", "A"⟩], [⟨1, 1, 0, none, ['a'], [1]⟩]⟩
        (fun _ _ => 0) "B" [1] 4) ∧
    search ⟨[⟨1, "a.txt", "A"⟩], [⟨1, 1, 0, none, ['a'], [1]⟩]⟩
      (fun _ _ => 0) "B" [1] 4 = [] := by
  have h := collection_isolation
    ⟨[⟨1, "a.txt", "A"⟩], [⟨1, 1, 0, none, ['a'], [1]⟩]⟩ (fun _ _ => 0)
    "A" "B" [1] 4 ⟨1, 1, 0, none, ['a'], [1]⟩ 0 ⟨1, "a.txt", "A"⟩
  refine ⟨by decide, by decide, ?_, ?_⟩
  · exact h.1 (by decide) (by decide) rfl rfl (by decide)
  · exact h.2 (by decide)

/-! ## Ingestion (modelled from the spec, sections 4.1 to 4.4 and 6) -/

/-- Modelled from the spec: the error taxonomy of section 7 restricted to
the ingestion path. -/
inductive IngestErr where
  | UnsupportedFormat
  | ExtractionError
  | EmbeddingError
  | StoreError
deriving DecidableEq

/-- Modelled from the spec: the ingestion output of section 6. -/
structure IngestResponse where
  document_id : Nat
  filename : String
  collection_id : String
  chunks_indexed : Nat
deriving DecidableEq

/-- Modelled from the spec: batch passage embedding, section 4.3 — all
chunk texts are embedded together; a failure on any text fails the whole
batch. -/
def embedAll (embedP : List Char → Except Unit (List ℚ)) :
    List (List Char) → Except Unit (List (List ℚ))
  | [] => .ok []
  | t :: ts =>
    match embedP t with
    | .error e => .error e
    | .ok v =>
      match embedAll embedP ts with
      | .error e => .error e
      | .ok vs => .ok (v :: vs)

/-- Modelled from the spec: the chunk rows built for one document, indices
contiguous from 0 in source order, fresh identifiers from `firstId`. Page
numbers are absent (the plain-text path of the parser). -/
def buildChunks (docId firstId idx : Nat) :
    List (List Char) → List (List ℚ) → List Chunk
  | t :: ts, e :: es =>
    ⟨firstId + idx, docId, idx, none, t, e⟩ :: buildChunks docId firstId (idx + 1) ts es
  | _, _ => []

/-- The store and response produced by a successful insert of one document
with its complete chunk set, section 4.4: `insert_document` followed by the
atomic `insert_chunks`. -/
def commitIngest (st : Store) (freshDoc freshChunk : Nat) (filename c : String)
    (pieces : List (List Char)) (embs : List (List ℚ)) : Store × IngestResponse :=
  (⟨st.documents ++ [⟨freshDoc, filename, c⟩],
    st.chunks ++ buildChunks freshDoc freshChunk 0 pieces embs⟩,
   ⟨freshDoc, filename, c, (buildChunks freshDoc freshChunk 0 pieces embs).length⟩)

/-- Modelled from the spec: the ingestion pipeline of section 2 — Parser →
Chunker → Embedder (passage mode) → Vector Store atomic insert. The parser
outcome arrives as `extract` (an extraction failure is an `Except.error`);
`embedP` is the passage embedder; `freshDoc` and `freshChunk` are the fresh
row identifiers the store would allocate. On any failure nothing is
written: a new state is only produced on success. -/
def ingest (W O : Nat) (st : Store) (freshDoc freshChunk : Nat)
    (filename c : String) (extract : Except IngestErr (List Char))
    (embedP : List Char → Except Unit (List ℚ)) :
    Except IngestErr (Store × IngestResponse) :=
  match extract with
  | .error e => .error e
  | .ok text =>
    match embedAll embedP (chunk_text W O text) with
    | .error _ => .error .EmbeddingError
    | .ok embs => .ok (commitIngest st freshDoc freshChunk filename c (chunk_text W O text) embs)

/-- The observable outcome of an ingestion request: on failure the caller
keeps the unchanged store and no response; on success the new store and
the response. -/
def applyIngest (W O : Nat) (st : Store) (freshDoc freshChunk : Nat)
    (filename c : String) (extract : Except IngestErr (List Char))
    (embedP : List Char → Except Unit (List ℚ)) : Store × Option IngestResponse :=
  match ingest W O st freshDoc freshChunk filename c extract embedP with
  | .error _ => (st, none)
  | .ok (st2, r) => (st2, some r)

/-- Modelled from the spec: `list_documents(collection_id)` of the vector
store, section 4.4 — the `{id, filename}` pairs of the documents of one
collection. -/
def list_documents (st : Store) (c : String) : List (Nat × String) :=
  (st.documents.filter fun d => d.collection_id == c).map fun d => (d.id, d.filename)

theorem ingest_extract_error (W O : Nat) (st : Store) (freshDoc freshChunk : Nat)
    (filename c : String) (e : IngestErr)
    (embedP : List Char → Except Unit (List ℚ)) :
    ingest W O st freshDoc freshChunk filename c (.error e) embedP = .error e := rfl

theorem ingest_embed_ok (W O : Nat) (st : Store) (freshDoc freshChunk : Nat)
    (filename c : String) (text : List Char)
    (embedP : List Char → Except Unit (List ℚ)) (embs : List (List ℚ))
    (hembs : embedAll embedP (chunk_text W O text) = .ok embs) :
    ingest W O st freshDoc freshChunk filename c (.ok text) embedP =
      .ok (commitIngest st freshDoc freshChunk filename c (chunk_text W O text) embs) := by
  show (match embedAll embedP (chunk_text W O text) with
    | .error _ => Except.error IngestErr.EmbeddingError
    | .ok embs => .ok (commitIngest st freshDoc freshChunk filename c (chunk_text W O text) embs)) = _
  rw [hembs]

theorem applyIngest_of_error (W O : Nat) (st : Store) (freshDoc freshChunk : Nat)
    (filename c : String) (extract : Except IngestErr (List Char))
    (embedP : List Char → Except Unit (List ℚ)) (e : IngestErr)
    (h : ingest W O st freshDoc freshChunk filename c extract embedP = .error e) :
    applyIngest W O st freshDoc freshChunk filename c extract embedP = (st, none) := by
  unfold applyIngest
  rw [h]

theorem applyIngest_of_ok (W O : Nat) (st : Store) (freshDoc freshChunk : Nat)
    (filename c : String) (extract : Except IngestErr (List Char))
    (embedP : List Char → Except Unit (List ℚ)) (st2 : Store) (r : IngestResponse)
    (h : ingest W O st freshDoc freshChunk filename c extract embedP = .ok (st2, r)) :
    applyIngest W O st freshDoc freshChunk filename c extract embedP = (st2, some r) := by
  unfold applyIngest
  rw [h]

theorem buildChunks_docid (docId firstId : Nat) :
    ∀ (idx : Nat) (ts : List (List Char)) (es : List (List ℚ)),
      ∀ ch ∈ buildChunks docId firstId idx ts es, ch.document_id = docId := by
  intro idx ts
  induction ts generalizing idx with
  | nil => intro es ch hch; cases hch
  | cons t ts ih =>
    intro es ch hch
    cases es with
    | nil => cases hch
    | cons e es =>
      rw [buildChunks, List.mem_cons] at hch
      rcases hch with rfl | hch
      · rfl
      · exact ih (idx + 1) es ch hch

theorem buildChunks_length (docId firstId : Nat) :
    ∀ (idx : Nat) (ts : List (List Char)) (es : List (List ℚ)),
      es.length = ts.length →
      (buildChunks docId firstId idx ts es).length = ts.length := by
  intro idx ts
  induction ts generalizing idx with
  | nil => intro es _; cases es <;> rfl
  | cons t ts ih =>
    intro es hlen
    cases es with
    | nil => exact absurd hlen (by simp)
    | cons e es =>
      rw [buildChunks, List.length_cons, List.length_cons]
      rw [List.length_cons, List.length_cons] at hlen
      rw [ih (idx + 1) es (Nat.succ_injective hlen)]

theorem embedAll_length (embedP : List Char → Except Unit (List ℚ)) :
    ∀ (ts : List (List Char)) (es : List (List ℚ)),
      embedAll embedP ts = .ok es → es.length = ts.length := by
  intro ts
  induction ts with
  | nil =>
    intro es h
    rw [embedAll] at h
    cases h
    rfl
  | cons t ts ih =>
    intro es h
    rw [embedAll] at h
    cases hv : embedP t with
    | error e => rw [hv] at h; cases h
    | ok v =>
      rw [hv] at h
      cases hrest : embedAll embedP ts with
      | error e => rw [hrest] at h; cases h
      | ok vs =>
        rw [hrest] at h
        cases h
        rw [List.length_cons, List.length_cons, ih vs hrest]

theorem embedAll_ok (embedP : List Char → Except Unit (List ℚ))
    (hemb : ∀ t, ∃ v, embedP t = .ok v) :
    ∀ ts : List (List Char), ∃ es, embedAll embedP ts = .ok es := by
  intro ts
  induction ts with
  | nil => exact ⟨[], rfl⟩
  | cons t ts ih =>
    obtain ⟨v, hv⟩ := hemb t
    obtain ⟨es, hes⟩ := ih
    refine ⟨v :: es, ?_⟩
    rw [embedAll, hv, hes]

/-- C5: ingestion is atomic. On any failure the store is unchanged — no
document row and no chunk row becomes visible; in particular a well-typed
file with no extractable text fails with `ExtractionError` and creates no
document row. On success the chunks recorded for the new document are the
complete set, whose size is the reported `chunks_indexed` — never a partial
chunk set. -/
theorem ingest_atomic (W O : Nat) (st : Store) (freshDoc freshChunk : Nat)
    (filename c : String) (extract : Except IngestErr (List Char))
    (embedP : List Char → Except Unit (List ℚ))
    (hfresh : ∀ ch ∈ st.chunks, ch.document_id ≠ freshDoc) :
    ((applyIngest W O st freshDoc freshChunk filename c extract embedP).2 = none →
      (applyIngest W O st freshDoc freshChunk filename c extract embedP).1 = st) ∧
    (∀ st2 r, applyIngest W O st freshDoc freshChunk filename c extract embedP = (st2, some r) →
      st2.documents = st.documents ++ [⟨freshDoc, filename, c⟩] ∧
      (st2.chunks.filter fun ch => ch.document_id == freshDoc).length = r.chunks_indexed) ∧
    (extract = .error .ExtractionError →
      ingest W O st freshDoc freshChunk filename c extract embedP = .error .ExtractionError ∧
      applyIngest W O st freshDoc freshChunk filename c extract embedP = (st, none)) := by
  refine ⟨?_, ?_, ?_⟩
  · intro hnone
    unfold applyIngest at hnone ⊢
    cases hres : ingest W O st freshDoc freshChunk filename c extract embedP with
    | error e => rfl
    | ok p => rw [hres] at hnone; cases hnone
  · intro st2 r happly
    cases extract with
    | error e =>
      rw [applyIngest_of_error W O st freshDoc freshChunk filename c _ embedP e
        (ingest_extract_error W O st freshDoc freshChunk filename c e embedP)] at happly
      cases congrArg Prod.snd happly
    | ok text =>
      cases hembs : embedAll embedP (chunk_text W O text) with
      | error e =>
        rw [applyIngest_of_error W O st freshDoc freshChunk filename c _ embedP
          .EmbeddingError (by
            show (match embedAll embedP (chunk_text W O text) with
              | .error _ => Except.error IngestErr.EmbeddingError
              | .ok embs =>
                .ok (commitIngest st freshDoc freshChunk filename c (chunk_text W O text) embs)) = _
            rw [hembs])] at happly
        cases congrArg Prod.snd happly
      | ok embs =>
        rw [applyIngest_of_ok W O st freshDoc freshChunk filename c _ embedP _ _
          (ingest_embed_ok W O st freshDoc freshChunk filename c text embedP embs hembs)] at happly
        have hst2 : st2 = (commitIngest st freshDoc freshChunk filename c
            (chunk_text W O text) embs).1 := (congrArg Prod.fst happly).symm
        have hr : some ((commitIngest st freshDoc freshChunk filename c
            (chunk_text W O text) embs).2) = some r := congrArg Prod.snd happly
        have hr2 : r = (commitIngest st freshDoc freshChunk filename c
            (chunk_text W O text) embs).2 := (Option.some.injEq .. ▸ hr).symm
        subst hst2
        subst hr2
        constructor
        · rfl
        · show ((st.chunks ++ buildChunks freshDoc freshChunk 0 (chunk_text W O text) embs).filter
            fun ch => ch.document_id == freshDoc).length =
            (buildChunks freshDoc freshChunk 0 (chunk_text W O text) embs).length
          rw [List.filter_append]
          have hleft : (st.chunks.filter fun ch => ch.document_id == freshDoc) = [] := by
            rw [List.filter_eq_nil_iff]
            intro ch hch hc
            exact hfresh ch hch (beq_iff_eq.mp hc)
          have hright :
              ((buildChunks freshDoc freshChunk 0 (chunk_text W O text) embs).filter
                fun ch => ch.document_id == freshDoc) =
              buildChunks freshDoc freshChunk 0 (chunk_text W O text) embs := by
            rw [List.filter_eq_self]
            intro ch hch
            rw [beq_iff_eq]
            exact buildChunks_docid freshDoc freshChunk 0 _ embs ch hch
          rw [hleft, hright, List.nil_append]
  · intro hext
    subst hext
    refine ⟨ingest_extract_error W O st freshDoc freshChunk filename c _ embedP, ?_⟩
    exact applyIngest_of_error W O st freshDoc freshChunk filename c _ embedP _
      (ingest_extract_error W O st freshDoc freshChunk filename c _ embedP)

/-- Witness for C5 on a concrete empty store with a failing extraction. -/
theorem ingest_atomic_witness :
    (∀ ch ∈ (⟨[], []⟩ : Store).chunks, ch.document_id ≠ 1) ∧
    (ingest 1200 200 ⟨[], []⟩ 1 1 "a.pdf" "default"
      (.error .ExtractionError) (fun _ => .ok []) = .error .ExtractionError ∧
     applyIngest 1200 200 ⟨[], []⟩ 1 1 "a.pdf" "default"
      (.error .ExtractionError) (fun _ => .ok []) = (⟨[], []⟩, none)) := by
  have h := ingest_atomic 1200 200 ⟨[], []⟩ 1 1 "a.pdf" "default"
    (.error .ExtractionError) (fun _ => .ok []) (fun ch hch => nomatch hch)
  exact ⟨(fun ch hch => nomatch hch), h.2.2 rfl⟩

/-- C7: extraction that succeeds with empty text produces zero chunks, the
response reports `chunks_indexed = 0`, and the document row is still
created and enumerable through `list_documents`. -/
theorem ingest_empty_text (W O : Nat) (st : Store) (freshDoc freshChunk : Nat)
    (filename c : String) (embedP : List Char → Except Unit (List ℚ)) :
    chunk_text W O [] = [] ∧
    applyIngest W O st freshDoc freshChunk filename c (.ok []) embedP =
      (⟨st.documents ++ [⟨freshDoc, filename, c⟩], st.chunks⟩,
       some ⟨freshDoc, filename, c, 0⟩) ∧
    (freshDoc, filename) ∈
      list_documents (applyIngest W O st freshDoc freshChunk filename c (.ok []) embedP).1 c := by
  have hchunk : chunk_text W O [] = [] := by
    unfold chunk_text
    by_cases h : O < W
    · rw [if_pos h]; rfl
    · rw [if_neg h]
  have hembs : embedAll embedP (chunk_text W O []) = .ok [] := by
    rw [hchunk]
    rfl
  have hcommit : commitIngest st freshDoc freshChunk filename c (chunk_text W O []) [] =
      (⟨st.documents ++ [⟨freshDoc, filename, c⟩], st.chunks⟩,
       ⟨freshDoc, filename, c, 0⟩) := by
    rw [hchunk]
    unfold commitIngest
    rw [show buildChunks freshDoc freshChunk 0 [] [] = [] from rfl, List.append_nil]
    rfl
  have happly : applyIngest W O st freshDoc freshChunk filename c (.ok []) embedP =
      (⟨st.documents ++ [⟨freshDoc, filename, c⟩], st.chunks⟩,
       some ⟨freshDoc, filename, c, 0⟩) := by
    rw [applyIngest_of_ok W O st freshDoc freshChunk filename c _ embedP _ _
      (by rw [ingest_embed_ok W O st freshDoc freshChunk filename c [] embedP [] hembs, hcommit])]
  refine ⟨hchunk, happly, ?_⟩
  rw [happly]
  unfold list_documents
  rw [List.mem_map]
  refine ⟨⟨freshDoc, filename, c⟩, ?_, rfl⟩
  rw [List.mem_filter]
  exact ⟨List.mem_append_right _ (List.mem_singleton.mpr rfl), beq_iff_eq.mpr rfl⟩

/-- C3: with the deployment constants `W = 1200`, `O = 200`, a text of
exactly 1300 characters chunks into exactly the two windows
`[0, 1200)` and `[1000, 1300)`, and ingesting it (with a total embedder)
reports `chunks_indexed = 2`. -/
theorem chunk_1300 (s : List Char) (hlen : s.length = 1300)
    (st : Store) (freshDoc freshChunk : Nat) (filename c : String)
    (embedP : List Char → Except Unit (List ℚ))
    (hemb : ∀ t, ∃ v, embedP t = .ok v) :
    chunk_text 1200 200 s = [s.take 1200, s.drop 1000] ∧
    ∃ st2 r, applyIngest 1200 200 st freshDoc freshChunk filename c (.ok s) embedP =
      (st2, some r) ∧ r.chunks_indexed = 2 := by
  have hne : s ≠ [] := by
    intro h
    rw [h] at hlen
    cases hlen
  have hd1 : s.drop 1000 ≠ [] := by
    intro h
    have := List.drop_eq_nil_iff.mp h
    omega
  have hd1len : (s.drop 1000).length = 300 := by
    rw [List.length_drop, hlen]
  have hd2 : (s.drop 1000).drop 1000 = [] := by
    rw [List.drop_eq_nil_iff, hd1len]
    omega
  have htake2 : (s.drop 1000).take 1200 = s.drop 1000 :=
    List.take_of_length_le (by rw [hd1len]; omega)
  have hchunk : chunk_text 1200 200 s = [s.take 1200, s.drop 1000] := by
    unfold chunk_text
    rw [if_pos (by omega), hlen]
    show slideFuel 1200 1000 1300 s = _
    rw [show (1300 : Nat) = 1299 + 1 from rfl, slideFuel_cons 1200 1000 1299 s hne,
      show (1299 : Nat) = 1298 + 1 from rfl, slideFuel_cons 1200 1000 1298 _ hd1,
      hd2, slideFuel_nil, htake2]
  refine ⟨hchunk, ?_⟩
  obtain ⟨es, hes⟩ := embedAll_ok embedP hemb (chunk_text 1200 200 s)
  have heslen : es.length = 2 := by
    rw [embedAll_length embedP _ es hes, hchunk]
    rfl
  refine ⟨_, _, applyIngest_of_ok 1200 200 st freshDoc freshChunk filename c _ embedP _ _
    (ingest_embed_ok 1200 200 st freshDoc freshChunk filename c s embedP es hes), ?_⟩
  show (buildChunks freshDoc freshChunk 0 (chunk_text 1200 200 s) es).length = 2
  rw [buildChunks_length freshDoc freshChunk 0 _ es (by rw [heslen, hchunk]; rfl), hchunk]
  rfl

/-- Witness for C3 at the concrete text of 1300 letter `a` characters. -/
theorem chunk_1300_witness :
    (List.replicate 1300 'a').length = 1300 ∧
    (chunk_text 1200 200 (List.replicate 1300 'a') =
      [(List.replicate 1300 'a').take 1200, (List.replicate 1300 'a').drop 1000] ∧
    ∃ st2 r, applyIngest 1200 200 ⟨[], []⟩ 1 1 "a.txt" "default"
      (.ok (List.replicate 1300 'a')) (fun _ => .ok []) = (st2, some r) ∧
      r.chunks_indexed = 2) :=
  ⟨List.length_replicate 1300 'a',
   chunk_1300 (List.replicate 1300 'a') (List.length_replicate 1300 'a')
     ⟨[], []⟩ 1 1 "a.txt" "default" (fun _ => .ok []) (fun _ => ⟨[], rfl⟩)⟩

/-! ## Answer composer and retriever (spec sections 4.5 and 4.6, citation
shape from frontend/src/App.tsx) -/

/-- The citation record, translated from the `Citation` type of
frontend/src/App.tsx: chunk_id, document_id, filename, page (int or null),
chunk_index, snippet, optional distance. -/
structure Citation where
  chunk_id : Nat
  document_id : Nat
  filename : String
  page : Option Nat
  chunk_index : Nat
  snippet : String
  distance : Option ℚ
deriving DecidableEq

/-- Modelled from the spec: the fixed answer of the no-context path of the
Answer Composer (backend/app/services/fallback_answer.py, file absent from
the source tree). -/
def noContextAnswer : String := "No relevant context found."

/-- Modelled from the spec: the bounded display length of a citation
snippet (deployment constant, exact value not observable). -/
def SNIPPET_LEN : Nat := 300

/-- Modelled from the spec: the maximum display length of the extractive
answer body (deployment constant, exact value not observable). -/
def ANSWER_LEN : Nat := 600

/-- The filename of the owning document, joined from the document table. -/
def filenameOf (st : Store) (docId : Nat) : String :=
  match st.documents.find? fun d => d.id == docId with
  | some d => d.filename
  | none => ""

/-- One citation record per returned chunk, fields per the frontend
`Citation` type; the snippet is a bounded-length excerpt of the chunk
text. -/
def mkCitation (st : Store) (p : Chunk × ℚ) : Citation :=
  ⟨p.1.id, p.1.document_id, filenameOf st p.1.document_id, p.1.page,
   p.1.chunk_index, String.mk (p.1.text.take SNIPPET_LEN), some p.2⟩

/-- Modelled from the spec: `compose(question, ranked_chunks)` of the
Answer Composer, section 4.6. An empty ranked list yields the fixed
no-context answer with an empty citation list; otherwise the answer is the
closest chunk trimmed to the display bound, with one citation per returned
chunk. -/
def compose (st : Store) (ranked : List (Chunk × ℚ)) : String × List Citation :=
  match ranked with
  | [] => (noContextAnswer, [])
  | (top, _) :: _ =>
    (String.mk (top.text.take ANSWER_LEN), ranked.map (mkCitation st))

/-- Modelled from the spec: the chat response of section 6. -/
structure ChatResponse where
  answer : String
  citations : List Citation
deriving DecidableEq

/-- Modelled from the spec: the chat-path error taxonomy of section 7. -/
inductive ChatErr where
  | InvalidRequest
  | EmbeddingError
deriving DecidableEq

/-- The externally visible effects of the chat path, used to state that a
rejected request performs no embedding and no search. -/
inductive Action where
  | embedQuery
  | searchStore
deriving DecidableEq

/-- Modelled from the spec: the query path of section 2 — Retriever
(validate `top_k ≥ 1`, else `InvalidRequest`; embed the question in query
mode; vector store search) followed by the Answer Composer. The second
component records which effects were performed, in order. -/
def chatT (st : Store) (dist : List ℚ → List ℚ → ℚ)
    (embedQ : String → Except Unit (List ℚ)) (question : String)
    (c : String) (top_k : Nat) : Except ChatErr ChatResponse × List Action :=
  if top_k < 1 then (.error .InvalidRequest, [])
  else
    match embedQ question with
    | .error _ => (.error .EmbeddingError, [.embedQuery])
    | .ok qv =>
      let ranked := search st dist c qv top_k
      (.ok ⟨(compose st ranked).1, (compose st ranked).2⟩, [.embedQuery, .searchStore])

theorem chatT_ok (st : Store) (dist : List ℚ → List ℚ → ℚ)
    (embedQ : String → Except Unit (List ℚ)) (question : String)
    (c : String) (top_k : Nat) (qv : List ℚ)
    (hk : 1 ≤ top_k) (hq : embedQ question = .ok qv) :
    chatT st dist embedQ question c top_k =
      (.ok ⟨(compose st (search st dist c qv top_k)).1,
            (compose st (search st dist c qv top_k)).2⟩,
       [.embedQuery, .searchStore]) := by
  unfold chatT
  rw [if_neg (by omega), hq]

/-- C6: a chat request whose retrieval returns the empty ranked list is a
normal success: the fixed no-context answer together with an empty citation
list. -/
theorem chat_empty_retrieval (st : Store) (dist : List ℚ → List ℚ → ℚ)
    (embedQ : String → Except Unit (List ℚ)) (question : String)
    (c : String) (top_k : Nat) (qv : List ℚ)
    (hk : 1 ≤ top_k) (hq : embedQ question = .ok qv)
    (hs : search st dist c qv top_k = []) :
    (chatT st dist embedQ question c top_k).1 = .ok ⟨noContextAnswer, []⟩ := by
  rw [chatT_ok st dist embedQ question c top_k qv hk hq, hs]
  rfl

/-- Witness for C6 on the empty store (a collection with zero documents). -/
theorem chat_empty_retrieval_witness :
    (1 : Nat) ≤ 4 ∧
    (fun _ : String => (.ok [1] : Except Unit (List ℚ))) "q" = .ok [1] ∧
    search ⟨[], []⟩ (fun _ _ => 0) "default" [1] 4 = [] ∧
    (chatT ⟨[], []⟩ (fun _ _ => 0) (fun _ => .ok [1]) "q" "default" 4).1 =
      .ok ⟨noContextAnswer, []⟩ :=
  ⟨by omega, rfl, by decide,
   chat_empty_retrieval ⟨[], []⟩ (fun _ _ => 0) (fun _ => .ok [1]) "q" "default" 4 [1]
     (by omega) rfl (by decide)⟩

/-- C8: a chat request with `top_k < 1` fails with `InvalidRequest` and
performs neither query embedding nor search; with `top_k ≥ 1` the retriever
embeds the question, and searches once the embedding succeeds. -/
theorem chat_topk_validation (st : Store) (dist : List ℚ → List ℚ → ℚ)
    (embedQ : String → Except Unit (List ℚ)) (question : String)
    (c : String) (top_k : Nat) :
    (top_k < 1 → chatT st dist embedQ question c top_k = (.error .InvalidRequest, [])) ∧
    (1 ≤ top_k → Action.embedQuery ∈ (chatT st dist embedQ question c top_k).2 ∧
      (∀ qv, embedQ question = .ok qv →
        Action.searchStore ∈ (chatT st dist embedQ question c top_k).2)) := by
  constructor
  · intro hk
    unfold chatT
    rw [if_pos hk]
  · intro hk
    constructor
    · unfold chatT
      rw [if_neg (by omega)]
      cases hq : embedQ question with
      | error e => exact List.mem_singleton.mpr rfl
      | ok qv => exact List.mem_cons_self _ _
    · intro qv hq
      rw [chatT_ok st dist embedQ question c top_k qv hk hq]
      exact List.mem_cons_of_mem _ (List.mem_singleton.mpr rfl)

/-- Witness for C8 at `top_k = 0` and `top_k = 4` on a concrete store. -/
theorem chat_topk_validation_witness :
    (chatT ⟨[], []⟩ (fun _ _ => 0) (fun _ => .ok [1]) "q" "default" 0 =
      (.error .InvalidRequest, [])) ∧
    (Action.embedQuery ∈ (chatT ⟨[], []⟩ (fun _ _ => 0) (fun _ => .ok [1]) "q" "default" 4).2 ∧
     Action.searchStore ∈ (chatT ⟨[], []⟩ (fun _ _ => 0) (fun _ => .ok [1]) "q" "default" 4).2) := by
  have h := chat_topk_validation ⟨[], []⟩ (fun _ _ => 0) (fun _ => .ok [1]) "q" "default"
  exact ⟨(h 0).1 (by omega), ((h 4).2 (by omega)).1, ((h 4).2 (by omega)).2 [1] rfl⟩

/-- The field-by-field correspondence between a ranked chunk and its
citation record. -/
def citationMatches (st : Store) (p : Chunk × ℚ) (ct : Citation) : Prop :=
  ct.chunk_id = p.1.id ∧ ct.document_id = p.1.document_id ∧
  ct.filename = filenameOf st p.1.document_id ∧ ct.page = p.1.page ∧
  ct.chunk_index = p.1.chunk_index ∧
  ct.snippet = String.mk (p.1.text.take SNIPPET_LEN) ∧
  ct.snippet.length ≤ SNIPPET_LEN ∧ ct.distance = some p.2

/-- C9: compose builds exactly one citation per returned chunk, each
carrying the fields of the frontend `Citation` type with a bounded-length
snippet; search returns `min top_k n` chunks when the collection owns `n`,
so a chat with `top_k = 4` over a 2-chunk collection yields exactly 2
citations and no error. -/
theorem compose_one_citation_per_chunk (st : Store) (ranked : List (Chunk × ℚ))
    (dist : List ℚ → List ℚ → ℚ) (c : String) (q : List ℚ) (top_k : Nat) :
    (compose st ranked).2.length = ranked.length ∧
    List.Forall₂ (citationMatches st) ranked (compose st ranked).2 ∧
    (search st dist c q top_k).length =
      min top_k (st.chunks.filter (inCollection st c)).length := by
  have hforall : List.Forall₂ (citationMatches st) ranked (ranked.map (mkCitation st)) := by
    rw [List.forall₂_map_right_iff]
    rw [List.forall₂_same]
    intro p _
    refine ⟨rfl, rfl, rfl, rfl, rfl, rfl, ?_, rfl⟩
    show (String.mk (p.1.text.take SNIPPET_LEN)).length ≤ SNIPPET_LEN
    rw [String.length_mk (p.1.text.take SNIPPET_LEN)]
    exact List.length_take_le _ _
  have hcompose : (compose st ranked).2 = ranked.map (mkCitation st) := by
    cases ranked with
    | nil => rfl
    | cons p rest => cases p; rfl
  refine ⟨?_, ?_, ?_⟩
  · rw [hcompose, List.length_map]
  · rw [hcompose]
    exact hforall
  · unfold search
    rw [List.length_take, List.length_insertionSort, List.length_map]

/-! ## Frontend helpers, translated from frontend/src/App.tsx -/

/-- A JavaScript number as far as `formatBytes` observes it: either a
finite value (modelled as an exact rational) or one of the non-finite
values rejected by `Number.isFinite`. -/
inductive JsNum where
  | finite (q : ℚ)
  | nan
  | posInf
  | negInf
deriving DecidableEq

/-- `Number.isFinite`. -/
def JsNum.isFinite : JsNum → Bool
  | .finite _ => true
  | _ => false

/-- The unit array of `formatBytes` in frontend/src/App.tsx. -/
def units : List String := ["B", "KB", "MB", "GB"]

/-- Zero-padding of the fractional digits for `toFixed`. -/
def padZeros (d : Nat) (s : List Char) : List Char :=
  List.replicate (d - s.length) '0' ++ s

/-- `Number.prototype.toFixed` on an exact rational: the value rounded to
`d` decimal digits and rendered with exactly `d` digits after the point
(no point when `d = 0`). -/
def toFixedQ (d : Nat) (v : ℚ) : String :=
  let scaled : Int := round (v * (10 : ℚ) ^ d)
  let sign := if scaled < 0 then "-" else ""
  let n := scaled.natAbs
  if d = 0 then sign ++ toString n
  else sign ++ toString (n / 10 ^ d) ++ "." ++
    String.mk (padZeros d (toString (n % 10 ^ d)).toList)

/-- The while loop of `formatBytes`: `while (v >= 1024 && i < units.length
- 1) { v /= 1024; i++; }`. The second conjunct of the guard is compiled
into the structurally decreasing argument `rem`, which callers pass as
`units.length - 1 - i`, so that `rem > 0` holds exactly when
`i < units.length - 1`. -/
def fbLoop : ℚ → Nat → Nat → ℚ × Nat
  | v, i, 0 => (v, i)
  | v, i, rem + 1 => if 1024 ≤ v then fbLoop (v / 1024) (i + 1) rem else (v, i)

/-- `formatBytes` of frontend/src/App.tsx: empty string when the input is
not finite, otherwise the value divided down below 1024 where possible,
rendered with `toFixed(i === 0 ? 0 : 1)` and the selected unit. -/
def formatBytes (bytes : JsNum) : String :=
  match bytes with
  | .finite b =>
    let p := fbLoop b 0 (units.length - 1)
    toFixedQ (if p.2 = 0 then 0 else 1) p.1 ++ " " ++ units.getD p.2 ""
  | _ => ""

theorem fbLoop_snd_le : ∀ (rem : Nat) (v : ℚ) (i : Nat),
    (fbLoop v i rem).2 ≤ i + rem := by
  intro rem
  induction rem with
  | zero => intro v i; exact Nat.le_of_eq (Nat.add_zero i).symm
  | succ n ih =>
    intro v i
    rw [fbLoop]
    by_cases h : (1024 : ℚ) ≤ v
    · rw [if_pos h]
      calc (fbLoop (v / 1024) (i + 1) n).2 ≤ i + 1 + n := ih (v / 1024) (i + 1)
        _ = i + (n + 1) := by omega
    · rw [if_neg h]
      exact Nat.le_add_right i (n + 1)

theorem units_getD_mem (i : Nat) (hi : i < units.length) :
    units.getD i "" ∈ units := by
  have h4 : i < 4 := hi
  clear hi
  interval_cases i <;> decide

/-- C10: `formatBytes` is total. A non-finite input returns the empty
string. For a finite input the division loop leaves the unit index at most
3, the last index of the four-element unit array (so the loop body runs at
most 3 times), and the returned string ends in one of the four units. -/
theorem formatBytes_total (bytes : JsNum) :
    (bytes.isFinite = false → formatBytes bytes = "") ∧
    (∀ q, bytes = .finite q →
      (fbLoop q 0 (units.length - 1)).2 ≤ 3 ∧
      ∃ u ∈ units, ∃ s, formatBytes bytes = s ++ " " ++ u) := by
  constructor
  · intro h
    cases bytes with
    | finite q => cases h
    | nan => rfl
    | posInf => rfl
    | negInf => rfl
  · intro q hq
    subst hq
    have hle : (fbLoop q 0 (units.length - 1)).2 ≤ 3 := by
      have := fbLoop_snd_le (units.length - 1) q 0
      simpa using this
    refine ⟨hle, units.getD (fbLoop q 0 (units.length - 1)).2 "", ?_, ?_⟩
    · exact units_getD_mem _ (by
        show (fbLoop q 0 (units.length - 1)).2 < 4
        omega)
    · exact ⟨toFixedQ (if (fbLoop q 0 (units.length - 1)).2 = 0 then 0 else 1)
        (fbLoop q 0 (units.length - 1)).1, rfl⟩

/-- Witness for C10 at a non-finite input and at 2048 bytes. -/
theorem formatBytes_total_witness :
    (JsNum.nan.isFinite = false ∧ formatBytes .nan = "") ∧
    ((fbLoop 2048 0 (units.length - 1)).2 ≤ 3 ∧
      ∃ u ∈ units, ∃ s, formatBytes (.finite 2048) = s ++ " " ++ u) :=
  ⟨⟨rfl, (formatBytes_total .nan).1 rfl⟩,
   (formatBytes_total (.finite 2048)).2 2048 rfl⟩

end RagKb
